import Mathlib

/-!
Verification of the packet-authentication engine of the LELEC210X `auth`
tool against its specification.

The repository ships the CLI driver `src/auth/src/auth/__main__.py`; the
core `packet` module (the `PacketUnwrapper`) is referenced by the driver
but its source is not part of the examined tree, so the core engine is
modelled here from the specification (frame codec, keyed MAC with a
constant-time comparison, sender allow-list, replay guard, and the
orchestrating `authenticate` entry point).  The CLI-side helpers
(`parse_packet`, the reader-branch selection, and the console echoes)
are embedded directly from `__main__.py`.

Machine bytes are modelled as `Nat` values, with `< 256` bounds made
explicit where the arguments matter.
-/

/-! ## Byte-level helpers -/

/-- Little-endian reconstruction of an unsigned 32-bit counter from its
four bytes. -/
def u32ofBytes (b1 b2 b3 b4 : Nat) : Nat :=
  b1 + 256 * (b2 + 256 * (b3 + 256 * b4))

/-- Little-endian serialization of an unsigned 32-bit counter. -/
def u32ToBytes (n : Nat) : List Nat :=
  [n % 256, n / 256 % 256, n / (256 * 256) % 256, n / (256 * 256 * 256) % 256]

theorem u32_round_trip (b1 b2 b3 b4 : Nat)
    (h1 : b1 < 256) (h2 : b2 < 256) (h3 : b3 < 256) (h4 : b4 < 256) :
    u32ToBytes (u32ofBytes b1 b2 b3 b4) = [b1, b2, b3, b4] := by
  unfold u32ofBytes u32ToBytes
  have e1 : (b1 + 256 * (b2 + 256 * (b3 + 256 * b4))) % 256 = b1 := by
    rw [Nat.add_mul_mod_self_left, Nat.mod_eq_of_lt h1]
  have d1 : (b1 + 256 * (b2 + 256 * (b3 + 256 * b4))) / 256
      = b2 + 256 * (b3 + 256 * b4) := by
    rw [Nat.add_mul_div_left _ _ (by norm_num : 0 < 256),
      Nat.div_eq_of_lt h1, Nat.zero_add]
  have e2 : (b1 + 256 * (b2 + 256 * (b3 + 256 * b4))) / 256 % 256 = b2 := by
    rw [d1, Nat.add_mul_mod_self_left, Nat.mod_eq_of_lt h2]
  have d2 : (b1 + 256 * (b2 + 256 * (b3 + 256 * b4))) / (256 * 256)
      = b3 + 256 * b4 := by
    rw [← Nat.div_div_eq_div_mul, d1,
      Nat.add_mul_div_left _ _ (by norm_num : 0 < 256),
      Nat.div_eq_of_lt h2, Nat.zero_add]
  have e3 : (b1 + 256 * (b2 + 256 * (b3 + 256 * b4))) / (256 * 256) % 256 = b3 := by
    rw [d2, Nat.add_mul_mod_self_left, Nat.mod_eq_of_lt h3]
  have e4 : (b1 + 256 * (b2 + 256 * (b3 + 256 * b4))) / (256 * 256 * 256) % 256 = b4 := by
    rw [← Nat.div_div_eq_div_mul, d2,
      Nat.add_mul_div_left _ _ (by norm_num : 0 < 256),
      Nat.div_eq_of_lt h3, Nat.zero_add, Nat.mod_eq_of_lt h4]
  rw [e1, e2, e3, e4]

/-! ## MacVerifier -/

/-- Accumulated bitwise difference of two byte sequences, in the style of
a constant-time digest comparison: every position contributes, and the
pair is unequal exactly when the accumulator is nonzero. -/
def foldDiff (l : List (Nat × Nat)) : Nat :=
  l.foldl (fun acc p => acc ||| (p.1 ^^^ p.2)) 0

/-- Modelled from the spec: `verify` compares tags with a fixed-time
comparison (no early exit on the first mismatching byte); modelled in the
style of a digest comparison that ORs the XOR of every byte pair before
testing the accumulator. -/
def ct_eq (a b : List Nat) : Bool :=
  (a.length == b.length) && (foldDiff (a.zip b) == 0)

theorem or_eq_zero_split (a b : Nat) (h : a ||| b = 0) : a = 0 ∧ b = 0 := by
  have hb : ∀ i, a.testBit i = false ∧ b.testBit i = false := by
    intro i
    have h2 : (a ||| b).testBit i = false := by rw [h]; exact Nat.zero_testBit i
    rw [Nat.testBit_or] at h2
    exact ⟨(Bool.or_eq_false_iff.mp h2).1, (Bool.or_eq_false_iff.mp h2).2⟩
  exact ⟨Nat.eq_of_testBit_eq (fun i => by rw [(hb i).1, Nat.zero_testBit]),
    Nat.eq_of_testBit_eq (fun i => by rw [(hb i).2, Nat.zero_testBit])⟩

theorem foldDiff_gen (l : List (Nat × Nat)) (acc : Nat) :
    l.foldl (fun acc p => acc ||| (p.1 ^^^ p.2)) acc = 0 ↔
      acc = 0 ∧ ∀ p ∈ l, p.1 = p.2 := by
  induction l generalizing acc with
  | nil => simp
  | cons hd tl ih =>
    simp only [List.foldl_cons, ih, List.mem_cons]
    constructor
    · rintro ⟨hor, hall⟩
      have h1 : acc = 0 ∧ hd.1 ^^^ hd.2 = 0 := or_eq_zero_split _ _ hor
      refine ⟨h1.1, ?_⟩
      intro p hp
      rcases hp with hp | hp
      · subst hp; exact Nat.xor_eq_zero.mp h1.2
      · exact hall p hp
    · rintro ⟨hacc, hall⟩
      subst hacc
      have hx : hd.1 ^^^ hd.2 = 0 := Nat.xor_eq_zero.mpr (hall hd (Or.inl rfl))
      refine ⟨by simp [hx], fun p hp => hall p (Or.inr hp)⟩

theorem foldDiff_eq_zero (l : List (Nat × Nat)) :
    foldDiff l = 0 ↔ ∀ p ∈ l, p.1 = p.2 := by
  unfold foldDiff
  rw [foldDiff_gen]
  simp

theorem mem_zip_self (p : Nat × Nat) : ∀ a : List Nat, p ∈ a.zip a → p.1 = p.2
  | [], h => by simp at h
  | hd :: tl, h => by
    simp only [List.zip_cons_cons, List.mem_cons] at h
    rcases h with h | h
    · subst h; rfl
    · exact mem_zip_self p tl h

theorem ct_eq_self (a : List Nat) : ct_eq a a = true := by
  have h0 : foldDiff (a.zip a) = 0 :=
    (foldDiff_eq_zero _).mpr (fun p hp => mem_zip_self p a hp)
  simp [ct_eq, h0]

/-- Modelled from the spec: the MAC algorithm itself is not in the
examined sources (the spec's section 9 records it as an open question);
the spec only requires a deterministic keyed function of
sender_id‖counter‖payload producing a fixed-size tag.  Modelled as a
keyed byte-fold checksum of that exact input, one fold per tag byte. -/
def compute_tag (tagSize : Nat) (key header payload : List Nat) : List Nat :=
  (List.range tagSize).map fun i =>
    (key ++ header ++ payload).foldl (fun a b => (a * 31 + b + 1) % 256) i

/-- Modelled from the spec: `verify` recomputes the expected tag and
compares it to the candidate with the fixed-time comparison. -/
def verify (tagSize : Nat) (key header payload candidate : List Nat) : Bool :=
  ct_eq (compute_tag tagSize key header payload) candidate

/-! ## FrameCodec -/

/-- A decoded frame: header fields, payload slice and tag slice. -/
structure Frame where
  senderId : Nat
  counter : Nat
  payload : List Nat
  tag : List Nat
deriving DecidableEq, Repr

/-- Configuration of one authenticator instance, supplied once at
construction: secret key, allow-list, payload length, tag length, and
whether tag checking is enabled.  The header is 1 sender byte plus a
4-byte counter. -/
structure AuthConfig where
  key : List Nat
  allowedSenders : List Nat
  payloadSize : Nat
  tagSize : Nat
  authEnabled : Bool

/-- Modelled from the spec: `decode` accepts exactly the buffers whose
length equals header_size (5) + payload_size + tag_size, and splits such
a buffer into sender byte, little-endian counter, payload slice and tag
slice; any other length fails before any field is extracted. -/
def decode (cfg : AuthConfig) (raw : List Nat) : Option Frame :=
  if raw.length = 5 + cfg.payloadSize + cfg.tagSize then
    match raw with
    | b0 :: b1 :: b2 :: b3 :: b4 :: rest =>
      some ⟨b0, u32ofBytes b1 b2 b3 b4,
        rest.take cfg.payloadSize, rest.drop cfg.payloadSize⟩
    | _ => none
  else none

/-! ## ReplayGuard -/

/-- Replay state: association list mapping a sender to the last accepted
counter value. -/
abbrev ReplayState := List (Nat × Nat)

/-- Last accepted counter recorded for a sender, if any. -/
def lookupCounter : ReplayState → Nat → Option Nat
  | [], _ => none
  | (s, c) :: rest, t => if s = t then some c else lookupCounter rest t

/-- Modelled from the spec: `accept` returns true exactly when no prior
counter is recorded for the sender or the recorded one is strictly
smaller; it never mutates state. -/
def accept (st : ReplayState) (s c : Nat) : Bool :=
  match lookupCounter st s with
  | none => true
  | some p => decide (p < c)

/-- Modelled from the spec: `commit` records the new counter for the
sender, replacing the previous entry or adding a first one. -/
def commit (st : ReplayState) (s c : Nat) : ReplayState :=
  match st with
  | [] => [(s, c)]
  | (t, p) :: rest => if t = s then (t, c) :: rest else (t, p) :: commit rest s c

theorem lookupCounter_commit_self (st : ReplayState) (s c : Nat) :
    lookupCounter (commit st s c) s = some c := by
  induction st with
  | nil => simp [commit, lookupCounter]
  | cons hd tl ih =>
    obtain ⟨t, p⟩ := hd
    by_cases h : t = s
    · subst h; simp [commit, lookupCounter]
    · simp [commit, lookupCounter, h, ih]

theorem lookupCounter_commit_other (st : ReplayState) (s c t : Nat) (h : t ≠ s) :
    lookupCounter (commit st s c) t = lookupCounter st t := by
  induction st with
  | nil => simp [commit, lookupCounter, Ne.symm h]
  | cons hd tl ih =>
    obtain ⟨u, p⟩ := hd
    by_cases hu : u = s
    · subst hu
      simp [commit, lookupCounter, Ne.symm h]
    · by_cases ht : u = t
      · subst ht; simp [commit, lookupCounter, hu]
      · simp [commit, lookupCounter, hu, ht, ih]

/-! ## PacketAuthenticator -/

/-- The four rejection kinds, in their fixed precedence order. -/
inductive Rejection
  | Malformed
  | TagMismatch
  | SenderNotAllowed
  | ReplayDetected
deriving DecidableEq, Repr

/-- SenderPolicy: pure membership in the configured allow-list. -/
def allowed (cfg : AuthConfig) (s : Nat) : Bool :=
  cfg.allowedSenders.contains s

/-- Modelled from the spec: the orchestrating entry point.  Decode, then
(when enabled) tag verification over the raw header bytes and payload,
then the allow-list check, then the replay check; the first failing
stage short-circuits to its typed rejection with the replay state left
untouched, and only full success commits the new counter. -/
def authenticate (cfg : AuthConfig) (st : ReplayState) (raw : List Nat) :
    Except Rejection (Nat × List Nat) × ReplayState :=
  match decode cfg raw with
  | none => (Except.error Rejection.Malformed, st)
  | some f =>
    if cfg.authEnabled && !(verify cfg.tagSize cfg.key (raw.take 5) f.payload f.tag) then
      (Except.error Rejection.TagMismatch, st)
    else if !(allowed cfg f.senderId) then
      (Except.error Rejection.SenderNotAllowed, st)
    else if !(accept st f.senderId f.counter) then
      (Except.error Rejection.ReplayDetected, st)
    else
      (Except.ok (f.senderId, f.payload), commit st f.senderId f.counter)

/-- The pipeline stages of one `authenticate` call, for tracing which
stages actually execute. -/
inductive Stage
  | decodeStage
  | macStage
  | senderStage
  | replayStage
  | commitStage
deriving DecidableEq, Repr

/-- The MAC stage runs only when tag checking is enabled. -/
def macStages (cfg : AuthConfig) : List Stage :=
  if cfg.authEnabled then [Stage.macStage] else []

/-- `authenticate` instrumented with the list of stages that execute, in
order; a failing stage is the last one in the trace. -/
def authenticateTrace (cfg : AuthConfig) (st : ReplayState) (raw : List Nat) :
    (Except Rejection (Nat × List Nat) × ReplayState) × List Stage :=
  match decode cfg raw with
  | none => ((Except.error Rejection.Malformed, st), [Stage.decodeStage])
  | some f =>
    if cfg.authEnabled && !(verify cfg.tagSize cfg.key (raw.take 5) f.payload f.tag) then
      ((Except.error Rejection.TagMismatch, st), [Stage.decodeStage, Stage.macStage])
    else if !(allowed cfg f.senderId) then
      ((Except.error Rejection.SenderNotAllowed, st),
        Stage.decodeStage :: macStages cfg ++ [Stage.senderStage])
    else if !(accept st f.senderId f.counter) then
      ((Except.error Rejection.ReplayDetected, st),
        Stage.decodeStage :: macStages cfg ++ [Stage.senderStage, Stage.replayStage])
    else
      ((Except.ok (f.senderId, f.payload), commit st f.senderId f.counter),
        Stage.decodeStage :: macStages cfg
          ++ [Stage.senderStage, Stage.replayStage, Stage.commitStage])

theorem authenticateTrace_fst (cfg : AuthConfig) (st : ReplayState) (raw : List Nat) :
    (authenticateTrace cfg st raw).1 = authenticate cfg st raw := by
  unfold authenticateTrace authenticate
  cases decode cfg raw with
  | none => rfl
  | some f =>
    by_cases h1 :
        cfg.authEnabled && !(verify cfg.tagSize cfg.key (raw.take 5) f.payload f.tag)
    · simp [h1]
    · by_cases h2 : allowed cfg f.senderId
      · by_cases h3 : accept st f.senderId f.counter
        · simp [h1, h2, h3]
        · simp [h1, h2, h3]
      · simp [h1, h2]

theorem decode_bad_length (cfg : AuthConfig) (raw : List Nat)
    (h : raw.length ≠ 5 + cfg.payloadSize + cfg.tagSize) :
    decode cfg raw = none := by
  simp [decode, h]

theorem decode_good_length (cfg : AuthConfig) (raw : List Nat)
    (hl : raw.length = 5 + cfg.payloadSize + cfg.tagSize)
    (hb : ∀ b ∈ raw, b < 256) :
    ∃ f, decode cfg raw = some f ∧
      raw = f.senderId :: (u32ToBytes f.counter ++ f.payload ++ f.tag) ∧
      f.payload.length = cfg.payloadSize ∧ f.tag.length = cfg.tagSize := by
  rcases raw with _ | ⟨b0, _ | ⟨b1, _ | ⟨b2, _ | ⟨b3, _ | ⟨b4, rest⟩⟩⟩⟩⟩ <;>
    simp only [List.length_nil, List.length_cons] at hl <;> try omega
  have hrest : rest.length = cfg.payloadSize + cfg.tagSize := by omega
  refine ⟨⟨b0, u32ofBytes b1 b2 b3 b4,
    rest.take cfg.payloadSize, rest.drop cfg.payloadSize⟩, ?_, ?_, ?_, ?_⟩
  · simp only [decode, List.length_cons]
    rw [if_pos (by omega)]
  · have h1 : b1 < 256 := hb b1 (by simp)
    have h2 : b2 < 256 := hb b2 (by simp)
    have h3 : b3 < 256 := hb b3 (by simp)
    have h4 : b4 < 256 := hb b4 (by simp)
    simp only [u32_round_trip b1 b2 b3 b4 h1 h2 h3 h4]
    simp [List.append_assoc, List.take_append_drop]
  · simp only [List.length_take]
    omega
  · simp only [List.length_drop]
    omega

theorem auth_decode_none (cfg : AuthConfig) (st : ReplayState) (raw : List Nat)
    (h : decode cfg raw = none) :
    authenticate cfg st raw = (Except.error Rejection.Malformed, st) ∧
      (authenticateTrace cfg st raw).2 = [Stage.decodeStage] := by
  constructor
  · unfold authenticate
    rw [h]
  · unfold authenticateTrace
    rw [h]

theorem auth_tag_fail (cfg : AuthConfig) (st : ReplayState) (raw : List Nat)
    (f : Frame) (hd : decode cfg raw = some f) (he : cfg.authEnabled = true)
    (hv : verify cfg.tagSize cfg.key (raw.take 5) f.payload f.tag = false) :
    authenticate cfg st raw = (Except.error Rejection.TagMismatch, st) ∧
      (authenticateTrace cfg st raw).2 = [Stage.decodeStage, Stage.macStage] := by
  have hcond : (cfg.authEnabled
      && !(verify cfg.tagSize cfg.key (raw.take 5) f.payload f.tag)) = true := by
    rw [he, hv]
    rfl
  constructor
  · unfold authenticate
    rw [hd]
    simp only [hcond, if_true]
  · unfold authenticateTrace
    rw [hd]
    simp only [hcond, if_true]

theorem mac_gate_false (cfg : AuthConfig) (raw : List Nat) (f : Frame)
    (hv : cfg.authEnabled = false ∨
      verify cfg.tagSize cfg.key (raw.take 5) f.payload f.tag = true) :
    (cfg.authEnabled
      && !(verify cfg.tagSize cfg.key (raw.take 5) f.payload f.tag)) = false := by
  rcases hv with hv | hv <;> simp [hv]

theorem auth_sender_fail (cfg : AuthConfig) (st : ReplayState) (raw : List Nat)
    (f : Frame) (hd : decode cfg raw = some f)
    (hv : cfg.authEnabled = false ∨
      verify cfg.tagSize cfg.key (raw.take 5) f.payload f.tag = true)
    (hs : allowed cfg f.senderId = false) :
    authenticate cfg st raw = (Except.error Rejection.SenderNotAllowed, st) ∧
      (authenticateTrace cfg st raw).2
        = Stage.decodeStage :: macStages cfg ++ [Stage.senderStage] := by
  have hcond := mac_gate_false cfg raw f hv
  constructor
  · unfold authenticate
    rw [hd]
    simp only [hcond, hs, Bool.false_eq_true, if_false, Bool.not_false, if_true]
  · unfold authenticateTrace
    rw [hd]
    simp only [hcond, hs, Bool.false_eq_true, if_false, Bool.not_false, if_true]

theorem auth_replay_fail (cfg : AuthConfig) (st : ReplayState) (raw : List Nat)
    (f : Frame) (hd : decode cfg raw = some f)
    (hv : cfg.authEnabled = false ∨
      verify cfg.tagSize cfg.key (raw.take 5) f.payload f.tag = true)
    (hs : allowed cfg f.senderId = true)
    (hr : accept st f.senderId f.counter = false) :
    authenticate cfg st raw = (Except.error Rejection.ReplayDetected, st) ∧
      (authenticateTrace cfg st raw).2
        = Stage.decodeStage :: macStages cfg ++ [Stage.senderStage, Stage.replayStage] := by
  have hcond := mac_gate_false cfg raw f hv
  constructor
  · unfold authenticate
    rw [hd]
    simp only [hcond, hs, hr, Bool.false_eq_true, if_false, Bool.not_false,
      Bool.not_true, if_true]
  · unfold authenticateTrace
    rw [hd]
    simp only [hcond, hs, hr, Bool.false_eq_true, if_false, Bool.not_false,
      Bool.not_true, if_true]

theorem auth_success (cfg : AuthConfig) (st : ReplayState) (raw : List Nat)
    (f : Frame) (hd : decode cfg raw = some f)
    (hv : cfg.authEnabled = false ∨
      verify cfg.tagSize cfg.key (raw.take 5) f.payload f.tag = true)
    (hs : allowed cfg f.senderId = true)
    (hr : accept st f.senderId f.counter = true) :
    authenticate cfg st raw
        = (Except.ok (f.senderId, f.payload), commit st f.senderId f.counter) ∧
      (authenticateTrace cfg st raw).2
        = Stage.decodeStage :: macStages cfg
            ++ [Stage.senderStage, Stage.replayStage, Stage.commitStage] := by
  have hcond := mac_gate_false cfg raw f hv
  constructor
  · unfold authenticate
    rw [hd]
    simp only [hcond, hs, hr, Bool.false_eq_true, if_false, Bool.not_false,
      Bool.not_true, if_true]
  · unfold authenticateTrace
    rw [hd]
    simp only [hcond, hs, hr, Bool.false_eq_true, if_false, Bool.not_false,
      Bool.not_true, if_true]

theorem auth_cases (cfg : AuthConfig) (st : ReplayState) (raw : List Nat) :
    decode cfg raw = none ∨ ∃ f, decode cfg raw = some f := by
  cases decode cfg raw with
  | none => exact Or.inl rfl
  | some f => exact Or.inr ⟨f, rfl⟩

/-! ## Replay sequences -/

/-- The events among `evts` (sender, counter pairs) that the replay
guard accepts when processed in order from state `st`, committing after
each acceptance. -/
def replayRun (st : ReplayState) : List (Nat × Nat) → List (Nat × Nat)
  | [] => []
  | (s, c) :: rest =>
    if accept st s c then (s, c) :: replayRun (commit st s c) rest
    else replayRun st rest

/-- Counters accepted for one particular sender, in order. -/
def acceptedFor (st : ReplayState) (evts : List (Nat × Nat)) (s : Nat) : List Nat :=
  (replayRun st evts).filterMap fun e => if e.1 = s then some e.2 else none

/-! ## Concrete instances

The spec's concrete scenarios (section 8) use key = 16 zero bytes,
payload length 4, tag length 16; the CLI driver (`__main__.py`) fixes
the allow-list to `[0]` and enables tag checking. -/

/-- Authenticator configuration matching the spec scenarios and the CLI
construction of the unwrapper. -/
def cfg0 : AuthConfig :=
  { key := List.replicate 16 0, allowedSenders := [0],
    payloadSize := 4, tagSize := 16, authEnabled := true }

/-- Scenario payload AA BB CC DD. -/
def payload0 : List Nat := [170, 187, 204, 221]

/-- Header bytes for sender 0, counter 1. -/
def header0 : List Nat := 0 :: u32ToBytes 1

/-- Valid tag for `header0` and `payload0`. -/
def tag0 : List Nat := compute_tag 16 cfg0.key header0 payload0

/-- A fully valid frame from sender 0 with counter 1. -/
def raw0 : List Nat := header0 ++ payload0 ++ tag0

/-- Header bytes for the disallowed sender 7, counter 1. -/
def header7 : List Nat := 7 :: u32ToBytes 1

/-- Valid tag for `header7` and `payload0`. -/
def tag7 : List Nat := compute_tag 16 cfg0.key header7 payload0

/-- A frame from the disallowed sender 7 with a valid tag. -/
def raw7 : List Nat := header7 ++ payload0 ++ tag7

/-- A frame from the disallowed sender 7 with an invalid (all-zero) tag. -/
def raw7bad : List Nat := header7 ++ payload0 ++ List.replicate 16 0

/-- A buffer one byte short of the fixed total frame length of `cfg0`. -/
def rawShort : List Nat := List.replicate 24 0

theorem acceptedFor_lower_bound (evts : List (Nat × Nat)) (st : ReplayState)
    (s p : Nat) (hp : lookupCounter st s = some p) :
    ∀ c ∈ acceptedFor st evts s, p < c := by
  induction evts generalizing st p with
  | nil => simp [acceptedFor, replayRun]
  | cons e rest ih =>
    obtain ⟨t, c0⟩ := e
    intro c hc
    by_cases ha : accept st t c0
    · simp only [acceptedFor, replayRun, ha, if_true, List.filterMap_cons] at hc
      by_cases hts : t = s
      · subst hts
        have hlt : p < c0 := by
          unfold accept at ha
          rw [hp] at ha
          simpa using ha
        simp only [if_pos rfl] at hc
        rcases List.mem_cons.mp hc with hceq | hc
        · omega
        · have := ih (commit st t c0) c0 (lookupCounter_commit_self st t c0)
          have hlt2 := this c hc
          omega
      · simp only [if_neg hts] at hc
        have hl2 : lookupCounter (commit st t c0) s = some p := by
          rw [lookupCounter_commit_other st t c0 s (fun e => hts e.symm), hp]
        exact ih (commit st t c0) p hl2 c hc
    · simp only [acceptedFor, replayRun, ha, if_false] at hc
      exact ih st p hp c hc

theorem acceptedFor_chain (evts : List (Nat × Nat)) (st : ReplayState) (s : Nat) :
    List.Chain' (· < ·) (acceptedFor st evts s) := by
  induction evts generalizing st with
  | nil => simp [acceptedFor, replayRun]
  | cons e rest ih =>
    obtain ⟨t, c0⟩ := e
    by_cases ha : accept st t c0
    · by_cases hts : t = s
      · subst hts
        have hrec : acceptedFor st ((t, c0) :: rest) t
            = c0 :: acceptedFor (commit st t c0) rest t := by
          simp [acceptedFor, replayRun, ha]
        rw [hrec]
        rw [List.chain'_cons']
        refine ⟨?_, ih (commit st t c0)⟩
        intro y hy
        have hymem : y ∈ acceptedFor (commit st t c0) rest t :=
          List.mem_of_mem_head? hy
        exact acceptedFor_lower_bound rest (commit st t c0) t c0
          (lookupCounter_commit_self st t c0) y hymem
      · have hrec : acceptedFor st ((t, c0) :: rest) s
            = acceptedFor (commit st t c0) rest s := by
          simp [acceptedFor, replayRun, ha, hts]
        rw [hrec]
        exact ih (commit st t c0)
    · have hrec : acceptedFor st ((t, c0) :: rest) s = acceptedFor st rest s := by
        simp [acceptedFor, replayRun, ha]
      rw [hrec]
      exact ih st

/-! ## Instrumented comparison cost -/

/-- The fixed-time comparison instrumented with the number of byte
comparisons performed: the accumulator pairs the running difference with
a step counter that every visited position increments. -/
def ctEqCount (a b : List Nat) : Bool × Nat :=
  let r := (a.zip b).foldl (fun acc p => (acc.1 ||| (p.1 ^^^ p.2), acc.2 + 1)) (0, 0)
  ((a.length == b.length) && (r.1 == 0), r.2)

theorem ctEqCount_fold (l : List (Nat × Nat)) (acc n : Nat) :
    l.foldl (fun acc p => (acc.1 ||| (p.1 ^^^ p.2), acc.2 + 1)) (acc, n)
      = (l.foldl (fun a p => a ||| (p.1 ^^^ p.2)) acc, n + l.length) := by
  induction l generalizing acc n with
  | nil => simp
  | cons hd tl ih =>
    simp only [List.foldl_cons, List.length_cons, ih]
    rw [Prod.mk.injEq]
    exact ⟨rfl, by omega⟩

theorem ctEqCount_spec (a b : List Nat) :
    ctEqCount a b = (ct_eq a b, min a.length b.length) := by
  unfold ctEqCount ct_eq foldDiff
  rw [ctEqCount_fold]
  simp [List.length_zip]

/-! ## Claims -/

/-- Claim C1: for every raw byte buffer, the rejection returned by
`authenticate` follows the fixed precedence Malformed, then TagMismatch,
then SenderNotAllowed, then ReplayDetected: a buffer failing an earlier
check is rejected with that earlier kind, and the stage trace ends at
the failing stage, so no later stage executes. -/
theorem C1_rejection_precedence (cfg : AuthConfig) (st : ReplayState) (raw : List Nat) :
    ((authenticate cfg st raw).1 = Except.error Rejection.Malformed ↔
      decode cfg raw = none) ∧
    (decode cfg raw = none →
      (authenticateTrace cfg st raw).2 = [Stage.decodeStage]) ∧
    (∀ f, decode cfg raw = some f →
      (cfg.authEnabled = true →
        verify cfg.tagSize cfg.key (raw.take 5) f.payload f.tag = false →
        (authenticate cfg st raw).1 = Except.error Rejection.TagMismatch ∧
        (authenticateTrace cfg st raw).2 = [Stage.decodeStage, Stage.macStage]) ∧
      ((cfg.authEnabled = false ∨
          verify cfg.tagSize cfg.key (raw.take 5) f.payload f.tag = true) →
        allowed cfg f.senderId = false →
        (authenticate cfg st raw).1 = Except.error Rejection.SenderNotAllowed ∧
        (authenticateTrace cfg st raw).2
          = Stage.decodeStage :: macStages cfg ++ [Stage.senderStage]) ∧
      ((cfg.authEnabled = false ∨
          verify cfg.tagSize cfg.key (raw.take 5) f.payload f.tag = true) →
        allowed cfg f.senderId = true →
        accept st f.senderId f.counter = false →
        (authenticate cfg st raw).1 = Except.error Rejection.ReplayDetected ∧
        (authenticateTrace cfg st raw).2
          = Stage.decodeStage :: macStages cfg
              ++ [Stage.senderStage, Stage.replayStage])) := by
  refine ⟨⟨?_, ?_⟩, ?_, ?_⟩
  · intro hres
    rcases auth_cases cfg st raw with h | ⟨f, hf⟩
    · exact h
    · exfalso
      unfold authenticate at hres
      rw [hf] at hres
      by_cases h1 : (cfg.authEnabled
          && !(verify cfg.tagSize cfg.key (raw.take 5) f.payload f.tag)) = true
      · simp [h1] at hres
      · have h1' : (cfg.authEnabled
            && !(verify cfg.tagSize cfg.key (raw.take 5) f.payload f.tag)) = false := by
          simpa using h1
        by_cases h2 : allowed cfg f.senderId = true
        · by_cases h3 : accept st f.senderId f.counter = true
          · simp [h1', h2, h3] at hres
          · have h3' : accept st f.senderId f.counter = false := by simpa using h3
            simp [h1', h2, h3'] at hres
        · have h2' : allowed cfg f.senderId = false := by simpa using h2
          simp [h1', h2'] at hres
  · intro h
    rw [(auth_decode_none cfg st raw h).1]
  · intro h
    exact (auth_decode_none cfg st raw h).2
  · intro f hf
    refine ⟨?_, ?_, ?_⟩
    · intro he hv
      have h := auth_tag_fail cfg st raw f hf he hv
      exact ⟨by rw [h.1], h.2⟩
    · intro hv hs
      have h := auth_sender_fail cfg st raw f hf hv hs
      exact ⟨by rw [h.1], h.2⟩
    · intro hv hs hr
      have h := auth_replay_fail cfg st raw f hf hv hs hr
      exact ⟨by rw [h.1], h.2⟩

/-- Witness for C1: each rejection kind and its truncated stage trace on
a concrete buffer. -/
theorem C1_rejection_precedence_witness :
    (authenticate cfg0 [] rawShort).1 = Except.error Rejection.Malformed ∧
    (authenticate cfg0 [] raw7bad).1 = Except.error Rejection.TagMismatch ∧
    (authenticateTrace cfg0 [] raw7bad).2 = [Stage.decodeStage, Stage.macStage] ∧
    (authenticate cfg0 [] raw7).1 = Except.error Rejection.SenderNotAllowed ∧
    (authenticate cfg0 [(0, 5)] raw0).1 = Except.error Rejection.ReplayDetected := by
  have hbad := ((C1_rejection_precedence cfg0 [] raw7bad).2.2
    ⟨7, 1, payload0, List.replicate 16 0⟩ rfl).1 rfl rfl
  refine ⟨?_, hbad.1, hbad.2, ?_, ?_⟩
  · exact ((C1_rejection_precedence cfg0 [] rawShort).1).mpr rfl
  · exact (((C1_rejection_precedence cfg0 [] raw7).2.2
      ⟨7, 1, payload0, tag7⟩ rfl).2.1 (Or.inr rfl) rfl).1
  · exact (((C1_rejection_precedence cfg0 [(0, 5)] raw0).2.2
      ⟨0, 1, payload0, tag0⟩ rfl).2.2 (Or.inr rfl) rfl rfl).1

/-- Claim C2: a buffer whose length differs from
header_size + payload_size + tag_size fails to decode (no field is
produced) and authenticate rejects it Malformed; a buffer of exactly
that length decodes to the header fields, payload slice and tag slice,
which reassemble to the original buffer. -/
theorem C2_decode_length (cfg : AuthConfig) (st : ReplayState) (raw : List Nat) :
    (raw.length ≠ 5 + cfg.payloadSize + cfg.tagSize →
      decode cfg raw = none ∧
      (authenticate cfg st raw).1 = Except.error Rejection.Malformed) ∧
    (raw.length = 5 + cfg.payloadSize + cfg.tagSize → (∀ b ∈ raw, b < 256) →
      ∃ f, decode cfg raw = some f ∧
        raw = f.senderId :: (u32ToBytes f.counter ++ f.payload ++ f.tag) ∧
        f.payload.length = cfg.payloadSize ∧ f.tag.length = cfg.tagSize) := by
  constructor
  · intro h
    have hn := decode_bad_length cfg raw h
    exact ⟨hn, by rw [(auth_decode_none cfg st raw hn).1]⟩
  · exact fun hl hb => decode_good_length cfg raw hl hb

/-- Witness for C2: the one-byte-short buffer is rejected Malformed, and
a full-length buffer decodes into reassembling fields. -/
theorem C2_decode_length_witness :
    (decode cfg0 rawShort = none ∧
      (authenticate cfg0 [] rawShort).1 = Except.error Rejection.Malformed) ∧
    (∃ f, decode cfg0 raw0 = some f ∧
      raw0 = f.senderId :: (u32ToBytes f.counter ++ f.payload ++ f.tag) ∧
      f.payload.length = cfg0.payloadSize ∧ f.tag.length = cfg0.tagSize) := by
  constructor
  · exact (C2_decode_length cfg0 [] rawShort).1 (by decide)
  · exact (C2_decode_length cfg0 [] raw0).2 (by decide) (by decide)

/-- Claim C3: `accept` returns true exactly when no counter is recorded
for the sender or the recorded counter is strictly smaller; a sender
with no record is always accepted; and the counters the guard accepts
for any one sender form a strictly increasing sequence. -/
theorem C3_replay_monotonic (st : ReplayState) (s c : Nat) :
    (accept st s c = true ↔
      lookupCounter st s = none ∨ ∃ p, lookupCounter st s = some p ∧ p < c) ∧
    (lookupCounter st s = none → accept st s c = true) ∧
    (∀ evts, List.Chain' (· < ·) (acceptedFor st evts s)) := by
  refine ⟨?_, ?_, fun evts => acceptedFor_chain evts st s⟩
  · unfold accept
    cases h : lookupCounter st s with
    | none => simp
    | some p => simp
  · intro h
    unfold accept
    rw [h]

/-- Witness for C3: a fresh sender is accepted, and a concrete event
sequence yields strictly increasing accepted counters. -/
theorem C3_replay_monotonic_witness :
    accept [] 0 5 = true ∧
    List.Chain' (· < ·) (acceptedFor [] [(0, 1), (0, 1), (0, 3), (0, 2), (0, 7)] 0) := by
  constructor
  · exact (C3_replay_monotonic [] 0 5).2.1 rfl
  · exact (C3_replay_monotonic [] 0 5).2.2 [(0, 1), (0, 1), (0, 3), (0, 2), (0, 7)]

theorem c4_post_gate (cfg : AuthConfig) (st : ReplayState) (raw : List Nat)
    (f : Frame) (hf : decode cfg raw = some f)
    (hvor : cfg.authEnabled = false ∨
      verify cfg.tagSize cfg.key (raw.take 5) f.payload f.tag = true) :
    (∀ e, (authenticate cfg st raw).1 = Except.error e →
      (authenticate cfg st raw).2 = st) ∧
    (∀ s p, (authenticate cfg st raw).1 = Except.ok (s, p) →
      ∃ g, decode cfg raw = some g ∧ s = g.senderId ∧
        (authenticate cfg st raw).2 = commit st g.senderId g.counter ∧
        lookupCounter (authenticate cfg st raw).2 g.senderId = some g.counter ∧
        (∀ q, lookupCounter st g.senderId = some q → q < g.counter) ∧
        (∀ t, t ≠ g.senderId →
          lookupCounter (authenticate cfg st raw).2 t = lookupCounter st t)) := by
  by_cases hs : allowed cfg f.senderId = true
  · by_cases hr : accept st f.senderId f.counter = true
    · have ha := (auth_success cfg st raw f hf hvor hs hr).1
      constructor
      · intro e he
        rw [ha] at he
        simp at he
      · intro s p hok
        rw [ha] at hok
        simp only [Except.ok.injEq, Prod.mk.injEq] at hok
        obtain ⟨hs', _⟩ := hok
        refine ⟨f, hf, hs'.symm, by rw [ha], ?_, ?_, ?_⟩
        · rw [ha]
          exact lookupCounter_commit_self st f.senderId f.counter
        · intro q hq
          unfold accept at hr
          rw [hq] at hr
          simpa using hr
        · intro t ht
          rw [ha]
          exact lookupCounter_commit_other st f.senderId f.counter t ht
    · have hr' : accept st f.senderId f.counter = false := by simpa using hr
      have ha := (auth_replay_fail cfg st raw f hf hvor hs hr').1
      constructor
      · intro e _
        rw [ha]
      · intro s p hok
        rw [ha] at hok
        simp at hok
  · have hs' : allowed cfg f.senderId = false := by simpa using hs
    have ha := (auth_sender_fail cfg st raw f hf hvor hs').1
    constructor
    · intro e _
      rw [ha]
    · intro s p hok
      rw [ha] at hok
      simp at hok

/-- Claim C4: every rejecting call leaves the replay state unchanged;
the state is updated only when every check passed and the frame is
accepted, and then only the accepting sender's entry moves, strictly
upward, so a committed counter is never decreased or rolled back. -/
theorem C4_rejection_no_mutation (cfg : AuthConfig) (st : ReplayState) (raw : List Nat) :
    (∀ e, (authenticate cfg st raw).1 = Except.error e →
      (authenticate cfg st raw).2 = st) ∧
    (∀ s p, (authenticate cfg st raw).1 = Except.ok (s, p) →
      ∃ g, decode cfg raw = some g ∧ s = g.senderId ∧
        (authenticate cfg st raw).2 = commit st g.senderId g.counter ∧
        lookupCounter (authenticate cfg st raw).2 g.senderId = some g.counter ∧
        (∀ q, lookupCounter st g.senderId = some q → q < g.counter) ∧
        (∀ t, t ≠ g.senderId →
          lookupCounter (authenticate cfg st raw).2 t = lookupCounter st t)) := by
  rcases auth_cases cfg st raw with h | ⟨f, hf⟩
  · have ha := (auth_decode_none cfg st raw h).1
    constructor
    · intro e _
      rw [ha]
    · intro s p hok
      rw [ha] at hok
      simp at hok
  · by_cases hen : cfg.authEnabled = true
    · by_cases hv : verify cfg.tagSize cfg.key (raw.take 5) f.payload f.tag = true
      · exact c4_post_gate cfg st raw f hf (Or.inr hv)
      · have hv' : verify cfg.tagSize cfg.key (raw.take 5) f.payload f.tag = false := by
          simpa using hv
        have ha := (auth_tag_fail cfg st raw f hf hen hv').1
        constructor
        · intro e _
          rw [ha]
        · intro s p hok
          rw [ha] at hok
          simp at hok
    · have hen' : cfg.authEnabled = false := by simpa using hen
      exact c4_post_gate cfg st raw f hf (Or.inl hen')

/-- Witness for C4: a rejected buffer leaves an empty state empty; an
accepted frame commits exactly its sender's counter. -/
theorem C4_rejection_no_mutation_witness :
    (authenticate cfg0 [] rawShort).2 = [] ∧
    (∃ g, decode cfg0 raw0 = some g ∧ (0 : Nat) = g.senderId ∧
      (authenticate cfg0 [] raw0).2 = commit [] g.senderId g.counter ∧
      lookupCounter (authenticate cfg0 [] raw0).2 g.senderId = some g.counter ∧
      (∀ q, lookupCounter [] g.senderId = some q → q < g.counter) ∧
      (∀ t, t ≠ g.senderId →
        lookupCounter (authenticate cfg0 [] raw0).2 t = lookupCounter [] t)) := by
  constructor
  · exact (C4_rejection_no_mutation cfg0 [] rawShort).1 Rejection.Malformed rfl
  · exact (C4_rejection_no_mutation cfg0 [] raw0).2 0 payload0 rfl

/-- Claim C5: `compute_tag` is deterministic (a pure function of key,
header and payload), and `verify` accepts the tag computed over the same
key, header and payload. -/
theorem C5_mac_authenticity (tagSize : Nat) (key header payload : List Nat) :
    compute_tag tagSize key header payload = compute_tag tagSize key header payload ∧
    verify tagSize key header payload (compute_tag tagSize key header payload) = true :=
  ⟨rfl, ct_eq_self (compute_tag tagSize key header payload)⟩

/-- Counterexample for C6 as stated: a well-formed frame from the
disallowed sender 7 whose tag does not verify is rejected TagMismatch,
not SenderNotAllowed — the allow-list outcome does not hold regardless
of tag validity, because the tag check precedes the sender check. -/
theorem C6_counterexample :
    decode cfg0 raw7bad = some ⟨7, 1, payload0, List.replicate 16 0⟩ ∧
    allowed cfg0 7 = false ∧
    (authenticate cfg0 [] raw7bad).1 = Except.error Rejection.TagMismatch ∧
    Rejection.TagMismatch ≠ Rejection.SenderNotAllowed :=
  ⟨rfl, rfl, rfl, by decide⟩

/-- Claim C6 (amended): for every well-formed frame whose tag verifies —
or with tag checking disabled — and whose decoded sender is not in the
allow-list, `authenticate` returns SenderNotAllowed regardless of the
counter value; and the shipped CLI allow-list is the singleton set
containing sender 0. -/
theorem C6_allow_list_law (cfg : AuthConfig) (st : ReplayState) (raw : List Nat)
    (f : Frame) (hf : decode cfg raw = some f)
    (hv : cfg.authEnabled = false ∨
      verify cfg.tagSize cfg.key (raw.take 5) f.payload f.tag = true)
    (hs : allowed cfg f.senderId = false) :
    (authenticate cfg st raw).1 = Except.error Rejection.SenderNotAllowed ∧
    (∀ s : Nat, allowed cfg0 s = true ↔ s = 0) := by
  refine ⟨by rw [(auth_sender_fail cfg st raw f hf hv hs).1], ?_⟩
  intro s
  show [0].contains s = true ↔ s = 0
  simp [List.contains, List.elem_cons, eq_comm]

/-- Witness for C6 (amended): sender 7 with a valid tag and counter 1 is
rejected SenderNotAllowed under the CLI configuration. -/
theorem C6_allow_list_law_witness :
    (authenticate cfg0 [] raw7).1 = Except.error Rejection.SenderNotAllowed ∧
    allowed cfg0 0 = true :=
  ⟨(C6_allow_list_law cfg0 [] raw7 ⟨7, 1, payload0, tag7⟩ rfl (Or.inr rfl) rfl).1,
    ((C6_allow_list_law cfg0 [] raw7 ⟨7, 1, payload0, tag7⟩ rfl (Or.inr rfl) rfl).2 0).mpr rfl⟩

/-- Claim C7: the comparison used by tag verification is constant-time
in the comparison-step cost model: the number of byte comparisons
performed depends only on the operand lengths — not on where the first
differing byte occurs nor on whether the tags are equal — and every
position is visited (cost = min of the lengths), so there is no early
exit; the instrumented comparison computes exactly `ct_eq`, which is the
comparison `verify` applies to the recomputed tag. -/
theorem C7_constant_time_comparison (tagSize : Nat) (key header payload : List Nat)
    (a b c d : List Nat) (hac : a.length = c.length) (hbd : b.length = d.length) :
    (ctEqCount a b).2 = (ctEqCount c d).2 ∧
    (ctEqCount a b).2 = min a.length b.length ∧
    (ctEqCount a b).1 = ct_eq a b ∧
    verify tagSize key header payload b
      = ct_eq (compute_tag tagSize key header payload) b := by
  rw [ctEqCount_spec, ctEqCount_spec, hac, hbd]
  exact ⟨rfl, rfl, rfl, rfl⟩

/-- Witness for C7: two pairs of equal-length tags, one differing in the
first byte and one differing in the last, cost the same number of byte
comparisons. -/
theorem C7_constant_time_comparison_witness :
    (ctEqCount [1, 2, 3] [9, 2, 3]).2 = (ctEqCount [1, 2, 3] [1, 2, 9]).2 ∧
    (ctEqCount [1, 2, 3] [9, 2, 3]).2 = min 3 3 ∧
    (ctEqCount [1, 2, 3] [9, 2, 3]).1 = ct_eq [1, 2, 3] [9, 2, 3] ∧
    verify 2 [0] [1] [2] [1, 2, 9]
      = ct_eq (compute_tag 2 [0] [1] [2]) [1, 2, 9] := by
  have h := C7_constant_time_comparison 2 [0] [1] [2]
    [1, 2, 3] [9, 2, 3] [1, 2, 3] [1, 2, 9] (by decide) (by decide)
  exact ⟨h.1, h.2.1, h.2.2.1, h.2.2.2⟩

/-! ## CLI driver embedding (`src/auth/src/auth/__main__.py`) -/

/-- The whitespace characters stripped by Python `str.strip` (ASCII
subset; the lines at issue are ASCII). -/
def isPySpace (c : Char) : Bool :=
  c = ' ' || c = '\t' || c = '\n' || c = '\r' || c = '\x0b' || c = '\x0c'

/-- Python `str.strip`: drop whitespace from both ends. -/
def pyStrip (l : List Char) : List Char :=
  ((l.dropWhile isPySpace).reverse.dropWhile isPySpace).reverse

/-- The marker PRINT_PREFIX = DF:HEX: from line 9 of `__main__.py`. -/
def dfHexMarker : List Char := ['D', 'F', ':', 'H', 'E', 'X', ':']

/-- Whether the second list starts with the first (Python
`str.startswith`). -/
def startsWithChars : List Char → List Char → Bool
  | [], _ => true
  | _ :: _, [] => false
  | p :: ps, c :: cs => p == c && startsWithChars ps cs

/-- The lowercase hex digit of a value below 16, as Python `bytes.hex`
formats it: the ten digits, then letters from a (codes 48 + n and
87 + n). -/
def hexDigitChar (n : Nat) : Char :=
  if n < 10 then Char.ofNat (48 + n) else Char.ofNat (87 + n)

/-- Value of one hex digit character, if it is one (Python
`bytes.fromhex` also accepts uppercase). -/
def hexDigitVal (c : Char) : Option Nat :=
  if '0' ≤ c ∧ c ≤ '9' then some (c.toNat - '0'.toNat)
  else if 'a' ≤ c ∧ c ≤ 'f' then some (c.toNat - 'a'.toNat + 10)
  else if 'A' ≤ c ∧ c ≤ 'F' then some (c.toNat - 'A'.toNat + 10)
  else none

/-- Python `bytes.fromhex` on a character list: pairs of hex digits;
failure (a ValueError in Python) is modelled as `none`. -/
def fromHexChars : List Char → Option (List Nat)
  | [] => some []
  | [_] => none
  | c1 :: c2 :: rest =>
    match hexDigitVal c1, hexDigitVal c2, fromHexChars rest with
    | some hi, some lo, some bs => some ((16 * hi + lo) :: bs)
    | _, _, _ => none

/-- Python `bytes.hex`: two lowercase hex digits per byte. -/
def hexCharsOfBytes (bs : List Nat) : List Char :=
  bs.foldr (fun b acc => hexDigitChar (b / 16) :: hexDigitChar (b % 16) :: acc) []

/-- Python `bytes.hex` as a string, for the console echoes. -/
def hexOfBytes (bs : List Nat) : String := ⟨hexCharsOfBytes bs⟩

/-- Embeds `parse_packet` (lines 12-18 of `__main__.py`): strip the
line; when the result starts with the DF:HEX: marker, hex-decode the
remainder; otherwise produce nothing. -/
def parse_packet (line : List Char) : Option (List Nat) :=
  if startsWithChars dfHexMarker (pyStrip line) then
    fromHexChars ((pyStrip line).drop dfHexMarker.length)
  else none

/-- Embeds the file-input reader (lines 136-151): every line is
stripped, echoed to the output file, parsed, and yielded to
`unwrap_packet` only when `parse_packet` produced a packet. -/
def fileReaderYields (lines : List (List Char)) : List (List Nat) :=
  lines.filterMap fun line => parse_packet (pyStrip line)

theorem hexDigitVal_hexDigitChar (n : Nat) (h : n < 16) :
    hexDigitVal (hexDigitChar n) = some n := by
  interval_cases n <;> decide

theorem hexDigitChar_not_space (n : Nat) (h : n < 16) :
    isPySpace (hexDigitChar n) = false := by
  interval_cases n <;> decide

theorem marker_not_space : ∀ c ∈ dfHexMarker, isPySpace c = false := by decide

theorem hexChars_no_space (bs : List Nat) (hb : ∀ b ∈ bs, b < 256) :
    ∀ c ∈ hexCharsOfBytes bs, isPySpace c = false := by
  induction bs with
  | nil => simp [hexCharsOfBytes]
  | cons b tl ih =>
    intro c hc
    have hblt : b < 256 := hb b (by simp)
    have hrec : hexCharsOfBytes (b :: tl)
        = hexDigitChar (b / 16) :: hexDigitChar (b % 16) :: hexCharsOfBytes tl := rfl
    rw [hrec] at hc
    rcases List.mem_cons.mp hc with hc | hc
    · subst hc
      exact hexDigitChar_not_space _ (by omega)
    · rcases List.mem_cons.mp hc with hc | hc
      · subst hc
        exact hexDigitChar_not_space _ (by omega)
      · exact ih (fun x hx => hb x (by simp [hx])) c hc

theorem fromHex_round (bs : List Nat) (hb : ∀ b ∈ bs, b < 256) :
    fromHexChars (hexCharsOfBytes bs) = some bs := by
  induction bs with
  | nil => rfl
  | cons b tl ih =>
    have hblt : b < 256 := hb b (by simp)
    have h1 : hexDigitVal (hexDigitChar (b / 16)) = some (b / 16) :=
      hexDigitVal_hexDigitChar _ (by omega)
    have h2 : hexDigitVal (hexDigitChar (b % 16)) = some (b % 16) :=
      hexDigitVal_hexDigitChar _ (by omega)
    have ih' := ih (fun x hx => hb x (by simp [hx]))
    show fromHexChars (hexDigitChar (b / 16) :: hexDigitChar (b % 16)
      :: hexCharsOfBytes tl) = some (b :: tl)
    rw [fromHexChars, h1, h2, ih']
    show some ((16 * (b / 16) + b % 16) :: tl) = some (b :: tl)
    have hbv : 16 * (b / 16) + b % 16 = b := by omega
    rw [hbv]

theorem dropWhile_all_true (ws l : List Char)
    (h : ∀ c ∈ ws, isPySpace c = true) :
    (ws ++ l).dropWhile isPySpace = l.dropWhile isPySpace := by
  induction ws with
  | nil => rfl
  | cons hd tl ih =>
    have hhd : isPySpace hd = true := h hd (by simp)
    simp only [List.cons_append, List.dropWhile_cons, hhd, if_true]
    exact ih (fun c hc => h c (by simp [hc]))

theorem dropWhile_of_no (l : List Char) (h : ∀ c ∈ l, isPySpace c = false) :
    l.dropWhile isPySpace = l := by
  cases l with
  | nil => rfl
  | cons hd tl =>
    have hhd : isPySpace hd = false := h hd (by simp)
    simp [List.dropWhile_cons, hhd]

theorem pyStrip_wrapped (ws1 core ws2 : List Char) (hne : core ≠ [])
    (h1 : ∀ c ∈ ws1, isPySpace c = true) (h2 : ∀ c ∈ ws2, isPySpace c = true)
    (hc : ∀ c ∈ core, isPySpace c = false) :
    pyStrip (ws1 ++ (core ++ ws2)) = core := by
  unfold pyStrip
  rw [dropWhile_all_true ws1 _ h1]
  rcases core with _ | ⟨c, cs⟩
  · exact absurd rfl hne
  · have hcc : isPySpace c = false := hc c (by simp)
    rw [show ((c :: cs) ++ ws2).dropWhile isPySpace = (c :: cs) ++ ws2 by
      simp [List.dropWhile_cons, hcc]]
    rw [List.reverse_append]
    rw [dropWhile_all_true ws2.reverse _ (fun x hx => h2 x (List.mem_reverse.mp hx))]
    rw [dropWhile_of_no (c :: cs).reverse (fun x hx => hc x (List.mem_reverse.mp hx))]
    exact List.reverse_reverse _

theorem startsWith_append (pre rest : List Char) :
    startsWithChars pre (pre ++ rest) = true := by
  induction pre with
  | nil => rfl
  | cons p ps ih =>
    simp only [List.cons_append, startsWithChars, beq_self_eq_true, Bool.true_and]
    exact ih

theorem pyStrip_of_no (l : List Char) (h : ∀ c ∈ l, isPySpace c = false) :
    pyStrip l = l := by
  unfold pyStrip
  rw [dropWhile_of_no l h,
    dropWhile_of_no l.reverse (fun x hx => h x (List.mem_reverse.mp hx)),
    List.reverse_reverse]

/-- Claim C10: `parse_packet` strips surrounding whitespace; on a line
whose stripped form starts with DF:HEX: it returns the hex-decoded
remainder, so the hex echo of any byte sequence round-trips; a stripped
line not starting with the marker yields nothing; and the file reader
passes to `unwrap_packet` only yielded packets, never marker-less
lines. -/
theorem C10_parse_packet_round_trip (b : List Nat) (hb : ∀ x ∈ b, x < 256) :
    parse_packet (dfHexMarker ++ hexCharsOfBytes b) = some b ∧
    (∀ ws1 ws2, (∀ c ∈ ws1, isPySpace c = true) → (∀ c ∈ ws2, isPySpace c = true) →
      parse_packet (ws1 ++ ((dfHexMarker ++ hexCharsOfBytes b) ++ ws2)) = some b) ∧
    (∀ l, startsWithChars dfHexMarker (pyStrip l) = false → parse_packet l = none) ∧
    (∀ lines p, p ∈ fileReaderYields lines →
      ∃ line, line ∈ lines ∧ parse_packet (pyStrip line) = some p) := by
  have hcore : ∀ c ∈ dfHexMarker ++ hexCharsOfBytes b, isPySpace c = false := by
    intro c hc
    rcases List.mem_append.mp hc with hc | hc
    · exact marker_not_space c hc
    · exact hexChars_no_space b hb c hc
  have hparse : parse_packet (dfHexMarker ++ hexCharsOfBytes b) = some b := by
    unfold parse_packet
    rw [pyStrip_of_no _ hcore]
    rw [startsWith_append, if_pos rfl]
    rw [List.drop_left]
    exact fromHex_round b hb
  refine ⟨hparse, ?_, ?_, ?_⟩
  · intro ws1 ws2 h1 h2
    unfold parse_packet
    rw [pyStrip_wrapped ws1 _ ws2 (by simp [dfHexMarker]) h1 h2 hcore]
    rw [startsWith_append, if_pos rfl]
    rw [List.drop_left]
    exact fromHex_round b hb
  · intro l h
    unfold parse_packet
    rw [h]
    rfl
  · intro lines p hp
    exact List.mem_filterMap.mp hp

/-- Witness for C10: the hex echo of AA BB round-trips, whitespace
around it is stripped, and a marker-less line yields nothing from a
one-line file whose reader therefore yields no packet. -/
theorem C10_parse_packet_round_trip_witness :
    parse_packet (dfHexMarker ++ hexCharsOfBytes [170, 187]) = some [170, 187] ∧
    parse_packet ([' '] ++ ((dfHexMarker ++ hexCharsOfBytes [170, 187]) ++ ['\n']))
      = some [170, 187] ∧
    parse_packet ['h', 'i'] = none := by
  have h := C10_parse_packet_round_trip [170, 187] (by decide)
  exact ⟨h.1, h.2.1 [' '] ['\n'] (by decide) (by decide), h.2.2.1 ['h', 'i'] (by decide)⟩

/-! ## Console echoes and reader selection of `main` -/

/-- Modelled from the spec: the human-readable reason string carried by
the InvalidPacket error for each rejection kind (the spec only requires
a reason string per kind; the exact texts are not in the examined
sources). -/
def rejectionMessage : Rejection → String
  | Rejection.Malformed => "invalid packet length"
  | Rejection.TagMismatch => "invalid authentication tag"
  | Rejection.SenderNotAllowed => "unallowed sender"
  | Rejection.ReplayDetected => "packet replay detected"

/-- Embeds lines 101-105 of `__main__.py`: on every non-quiet invocation
the startup banner echoes the authentication key as `auth_key.hex()`;
with `--quiet` nothing is echoed. -/
def bannerEcho (quiet : Bool) (authKey : List Nat) : List String :=
  if quiet then []
  else ["Unwrapping packets with auth. key: " ++ hexOfBytes authKey]

/-- Embeds the per-packet echo of the main loop (lines 177-188): an
accepted packet prints its sender and payload hex; a rejected one prints
the rejection reason. -/
def messageEcho (r : Except Rejection (Nat × List Nat)) : String :=
  match r with
  | Except.ok (s, p) => "From " ++ toString s ++ ", received packet: " ++ hexOfBytes p
  | Except.error e => "Invalid packet error: " ++ rejectionMessage e

/-- The echo lines of the main loop over a stream of raw packets,
threading the replay state through successive `authenticate` calls. -/
def processEchoes (cfg : AuthConfig) (st : ReplayState) : List (List Nat) → List String
  | [] => []
  | m :: rest =>
    messageEcho (authenticate cfg st m).1
      :: processEchoes cfg (authenticate cfg st m).2 rest

/-- All console echoes of one `main` invocation: the startup banner,
then the source-information lines (also quiet-gated), then the
per-packet lines. -/
def mainEchoes (quiet : Bool) (cfg : AuthConfig) (sourceInfo : List String)
    (msgs : List (List Nat)) : List String :=
  bannerEcho quiet cfg.key ++ (if quiet then [] else sourceInfo)
    ++ processEchoes cfg [] msgs

/-- A lowercase hex digit character, the display-safe alphabet of the
key echo. -/
def isHexLowerDigit (c : Char) : Bool :=
  ('0' ≤ c && c ≤ '9') || ('a' ≤ c && c ≤ 'f')

theorem hexDigitChar_is_digit (n : Nat) (h : n < 16) :
    isHexLowerDigit (hexDigitChar n) = true := by
  interval_cases n <;> decide

theorem hexCharsOfBytes_length (bs : List Nat) :
    (hexCharsOfBytes bs).length = 2 * bs.length := by
  induction bs with
  | nil => rfl
  | cons b tl ih =>
    show (hexDigitChar (b / 16) :: hexDigitChar (b % 16)
      :: hexCharsOfBytes tl).length = 2 * (b :: tl).length
    simp only [List.length_cons, ih]
    omega

theorem hexCharsOfBytes_digits (bs : List Nat) (hb : ∀ b ∈ bs, b < 256) :
    ∀ c ∈ hexCharsOfBytes bs, isHexLowerDigit c = true := by
  induction bs with
  | nil => simp [hexCharsOfBytes]
  | cons b tl ih =>
    intro c hc
    have hblt : b < 256 := hb b (by simp)
    have hrec : hexCharsOfBytes (b :: tl)
        = hexDigitChar (b / 16) :: hexDigitChar (b % 16) :: hexCharsOfBytes tl := rfl
    rw [hrec] at hc
    rcases List.mem_cons.mp hc with hc | hc
    · subst hc
      exact hexDigitChar_is_digit _ (by omega)
    · rcases List.mem_cons.mp hc with hc | hc
      · subst hc
        exact hexDigitChar_is_digit _ (by omega)
      · exact ih (fun x hx => hb x (by simp [hx])) c hc

/-- Claim C8: the startup banner, present exactly on non-quiet
invocations, is the only place the key reaches the console, and it
carries the key as its hex echo — a display-safe string of twice the key
length made of lowercase hex digits; every per-packet echo line is
either a sender/payload rendering or a rejection message, never the
key. -/
theorem C8_key_hex_echo (quiet : Bool) (cfg : AuthConfig) (src : List String)
    (msgs : List (List Nat)) :
    (quiet = false → mainEchoes quiet cfg src msgs
      = ("Unwrapping packets with auth. key: " ++ hexOfBytes cfg.key)
          :: (src ++ processEchoes cfg [] msgs)) ∧
    (quiet = true → mainEchoes quiet cfg src msgs = processEchoes cfg [] msgs) ∧
    ((∀ b ∈ cfg.key, b < 256) →
      (hexOfBytes cfg.key).length = 2 * cfg.key.length ∧
      ∀ c ∈ (hexOfBytes cfg.key).data, isHexLowerDigit c = true) ∧
    (∀ st line, line ∈ processEchoes cfg st msgs →
      (∃ (s : Nat) (p : List Nat),
        line = "From " ++ toString s ++ ", received packet: " ++ hexOfBytes p) ∨
      (∃ e, line = "Invalid packet error: " ++ rejectionMessage e)) := by
  refine ⟨?_, ?_, ?_, ?_⟩
  · intro hq
    subst hq
    simp [mainEchoes, bannerEcho]
  · intro hq
    subst hq
    simp [mainEchoes, bannerEcho]
  · intro hb
    refine ⟨?_, hexCharsOfBytes_digits cfg.key hb⟩
    show (hexCharsOfBytes cfg.key).length = 2 * cfg.key.length
    exact hexCharsOfBytes_length cfg.key
  · intro st line hline
    induction msgs generalizing st with
    | nil => simp [processEchoes] at hline
    | cons m rest ih =>
      rcases List.mem_cons.mp hline with hline | hline
      · subst hline
        rcases hr : (authenticate cfg st m).1 with e | sp
        · right
          exact ⟨e, by rw [messageEcho]⟩
        · left
          obtain ⟨s, p⟩ := sp
          exact ⟨s, p, by rw [messageEcho]⟩
      · exact ih (authenticate cfg st m).2 hline

/-- Witness for C8: under the CLI defaults the startup banner of a
non-quiet run is exactly the hex echo of the key, quiet runs echo
nothing at startup, and the hex echo has twice the key's length. -/
theorem C8_key_hex_echo_witness :
    mainEchoes false cfg0 [] []
      = ["Unwrapping packets with auth. key: " ++ hexOfBytes cfg0.key] ∧
    mainEchoes true cfg0 [] [] = [] ∧
    (hexOfBytes cfg0.key).length = 2 * cfg0.key.length := by
  have h := C8_key_hex_echo false cfg0 [] []
  have h2 := C8_key_hex_echo true cfg0 [] []
  refine ⟨by simpa using h.1 rfl, by simpa using h2.2.1 rfl, (h.2.2.1 (by decide)).1⟩

/-- The three reader branches of `main` (lines 115-174): the serial
branch takes precedence, then the file branch, else the ZMQ TCP source;
the serial branch records the `port` argument passed to `serial.Serial`
on line 118. -/
inductive ReaderBranch
  | serialReader (port : Option String)
  | fileReader
  | tcpReader (addr : String)
deriving DecidableEq, Repr

/-- Python truthiness of the `--serial-port` string option: `if
serial_port:` is taken for a provided, non-empty string. -/
def truthyStr : Option String → Bool
  | none => false
  | some s => !s.isEmpty

/-- Embeds the reader selection of `main` together with the serial-open
argument: line 118 passes `port=_input`, the `--input` option, not the
`--serial-port` value. -/
def chooseReader (serialPort inputOpt : Option String) (tcpAddress : String) :
    ReaderBranch :=
  if truthyStr serialPort then ReaderBranch.serialReader inputOpt
  else if inputOpt.isSome then ReaderBranch.fileReader
  else ReaderBranch.tcpReader tcpAddress

/-- Claim C9: whenever `--serial-port` is specified (non-empty), the
serial branch is selected and the serial connection is opened with
`port` equal to the `--input` value, not the `--serial-port` value — in
particular the selected branch does not depend on which non-empty
serial-port string was given. -/
theorem C9_serial_port_uses_input (sp inp : Option String) (tcp : String)
    (h : truthyStr sp = true) :
    chooseReader sp inp tcp = ReaderBranch.serialReader inp ∧
    (∀ sp', truthyStr sp' = true →
      chooseReader sp inp tcp = chooseReader sp' inp tcp) := by
  constructor
  · simp [chooseReader, h]
  · intro sp' h'
    simp [chooseReader, h, h']

/-- Witness for C9: with `--serial-port /dev/tty0` and `--input -`, the
serial branch opens port `-` (the input value), identically for serial
port `/dev/ttyUSB1`. -/
theorem C9_serial_port_uses_input_witness :
    chooseReader (some "/dev/tty0") (some "-") "tcp://127.0.0.1:10000"
      = ReaderBranch.serialReader (some "-") ∧
    chooseReader (some "/dev/tty0") (some "-") "tcp://127.0.0.1:10000"
      = chooseReader (some "/dev/ttyUSB1") (some "-") "tcp://127.0.0.1:10000" := by
  have h := C9_serial_port_uses_input (some "/dev/tty0") (some "-")
    "tcp://127.0.0.1:10000" (by decide)
  exact ⟨h.1, h.2 (some "/dev/ttyUSB1") (by decide)⟩
